import Mathlib

/-!
# Verification of the address autocomplete core logic

A shallow embedding of the two pure core functions of the repository's
`AddressAutocomplete` component — the tokenizer `extractStreetAndNumber`
and the formatter `formatArgentinianAddress` — together with the
filter/deduplicate pipeline of `searchAddresses`, and proofs of the
specified properties.

JavaScript strings are modelled as `List Char`; all string operations of
the source (`trim`, `split`, `join`, `includes`, the numeric-token regex
test) are given explicit executable definitions over char lists.
-/

namespace AddressAutocomplete

/-- A JavaScript string, modelled as a list of characters. -/
abbrev Str := List Char

/-- Whitespace test used by JS `trim` and the `\s` regex class.  The source
only ever meets ASCII whitespace; we model the ASCII subset. -/
def isWs (c : Char) : Bool := c = ' ' || c = '\t' || c = '\n' || c = '\r'

/-- JS `String.prototype.trim`: remove leading and trailing whitespace. -/
def jsTrim (s : Str) : Str :=
  ((s.dropWhile isWs).reverse.dropWhile isWs).reverse

/-- JS `input.split(',')[0]`: the characters before the first comma. -/
def headBeforeComma (s : Str) : Str := s.takeWhile (fun c => !(c == ','))

/-- Source `const withoutCommas = input.split(',')[0].trim()` (source line 49). -/
def headOf (input : Str) : Str := jsTrim (headBeforeComma input)

/-- Accumulating splitter: breaks a string into maximal runs of
non-whitespace characters (the accumulator holds the current token,
reversed). -/
def wordsAux (acc : Str) : Str → List Str
  | [] => if acc = [] then [] else [acc.reverse]
  | c :: rest =>
    if isWs c then
      (if acc = [] then [] else [acc.reverse]) ++ wordsAux [] rest
    else wordsAux (c :: acc) rest

/-- JS `withoutCommas.split(/\s+/)` (source line 52), for the trimmed
string it is applied to: the empty string yields `[""]`, a non-empty
trimmed string yields its maximal non-whitespace runs. -/
def splitWs (s : Str) : List Str :=
  if s = [] then [[]] else wordsAux [] s

/-- The token list the tokenizer works on for a given raw input. -/
def tokensOf (input : Str) : List Str := splitWs (headOf input)

/-- Character class `[A-Za-z0-9\-\/]` of the numeric-token regex. -/
def isNumericTokenChar (c : Char) : Bool :=
  c.isDigit || (('A' ≤ c && c ≤ 'Z') || ('a' ≤ c && c ≤ 'z')) || c = '-' || c = '/'

/-- JS regex test `/^\d+[A-Za-z0-9\-\/]*$/.test(token)` (source line 57).
Since digits belong to the tail class, the regex accepts exactly the
non-empty strings whose first character is a digit and whose remaining
characters all lie in `[A-Za-z0-9\-\/]`. -/
def isNumericToken (t : Str) : Bool :=
  match t with
  | [] => false
  | c :: cs => c.isDigit && cs.all isNumericTokenChar

/-- Indices of all numeric tokens (source lines 55–60). -/
def numericIndices (tokens : List Str) : List Nat :=
  (List.range tokens.length).filter fun i => isNumericToken (tokens.getD i [])

/-- JS `Array.prototype.join(' ')`. -/
def joinSpace : List Str → Str
  | [] => []
  | [t] => t
  | t :: u :: rest => t ++ ' ' :: joinSpace (u :: rest)

/-- JS `Array.prototype.join(', ')`. -/
def joinCommaSpace : List Str → Str
  | [] => []
  | [t] => t
  | t :: u :: rest => t ++ ',' :: ' ' :: joinCommaSpace (u :: rest)

/-- The `{street, number}` pair parsed from raw input (`number = none`
models JS `null`). -/
structure ParsedHint where
  street : Str
  number : Option Str
deriving DecidableEq

/-- The tokenizer `extractStreetAndNumber` (source lines 48–93). -/
def extractStreetAndNumber (input : Str) : ParsedHint :=
  let withoutCommas := headOf input
  let tokens := tokensOf input
  let numericTokenIndices := numericIndices tokens
  -- Case 1: two or more numeric tokens -> the last one is the house number
  if 2 ≤ numericTokenIndices.length then
    let houseNumberIdx := numericTokenIndices.getLastD 0
    { street := jsTrim (joinSpace (tokens.take houseNumberIdx)),
      number := some (tokens.getD houseNumberIdx []) }
  -- Case 2: exactly one numeric token
  else if numericTokenIndices.length = 1 then
    let numIdx := numericTokenIndices.headD 0
    if numIdx = tokens.length - 1 && 0 < numIdx then
      { street := jsTrim (joinSpace (tokens.take numIdx)),
        number := some (tokens.getD numIdx []) }
    else
      { street := withoutCommas, number := none }
  -- Case 3: no numeric tokens
  else
    { street := withoutCommas, number := none }

/-- The nested `address` object of a Nominatim result (source lines 17–29);
each field is optional. -/
structure Address where
  house_number : Option Str := none
  road : Option Str := none
  suburb : Option Str := none
  city : Option Str := none
  town : Option Str := none
  village : Option Str := none
  municipality : Option Str := none
  city_district : Option Str := none
  state : Option Str := none
  postcode : Option Str := none
  country : Option Str := none
deriving DecidableEq

/-- A Nominatim result record (source lines 13–30).  The formatter guards
`if (!addr)`, so the address object is modelled as optional. -/
structure NominatimResult where
  display_name : Str
  lat : Str := []
  lon : Str := []
  address : Option Address := none
deriving DecidableEq

/-- JS `field || ''` on an optional field: an absent field reads as the
empty string. -/
def optStr (o : Option Str) : Str := o.getD []

/-- JS `a || b` on strings: the empty string is falsy. -/
def jsOr (a b : Str) : Str := if a = [] then b else a

/-- Source `const locality = addr.town || addr.suburb || addr.village || ''`
(source line 105). -/
def localityOf (a : Address) : Str :=
  jsOr (optStr a.town) (jsOr (optStr a.suburb) (optStr a.village))

/-- Source `const municipality = addr.municipality || addr.city_district || addr.city || ''`
(source line 106). -/
def municipalityOf (a : Address) : Str :=
  jsOr (optStr a.municipality) (jsOr (optStr a.city_district) (optStr a.city))

/-- Source `let number = addr.house_number || ''` followed by the unconditional
override `if (injected?.number) number = injected.number`
(source lines 109–116). -/
def numberToUse (a : Address) (injected : Option ParsedHint) : Str :=
  match injected.bind ParsedHint.number with
  | some n => if n ≠ [] then n else optStr a.house_number
  | none => optStr a.house_number

/-- Source `let streetToUse = streetOSM` followed by
`if (injected?.street) streetToUse = injected.street`
(source lines 110, 118–122). -/
def streetToUse (a : Address) (injected : Option ParsedHint) : Str :=
  match injected with
  | some h => if h.street ≠ [] then h.street else optStr a.road
  | none => optStr a.road

/-- The parts list built by the formatter (source lines 124–132): the
street segment (street plus number when a number exists), then locality,
municipality and state, each included only when non-empty. -/
def formatParts (a : Address) (injected : Option ParsedHint) : List Str :=
  (if streetToUse a injected ≠ [] then
    [if numberToUse a injected ≠ [] then
       streetToUse a injected ++ ' ' :: numberToUse a injected
     else streetToUse a injected]
   else []) ++
  (if localityOf a ≠ [] then [localityOf a] else []) ++
  (if municipalityOf a ≠ [] then [municipalityOf a] else []) ++
  (if optStr a.state ≠ [] then [optStr a.state] else [])

/-- The formatter `formatArgentinianAddress` (source lines 96–136). -/
def formatArgentinianAddress (result : NominatimResult)
    (injected : Option ParsedHint) : Str :=
  match result.address with
  | none => result.display_name
  | some addr =>
    let formatted := jsTrim (joinCommaSpace (formatParts addr injected))
    if formatted ≠ [] then formatted else result.display_name

/-- Boolean test that `pat` is a prefix of `s`. -/
def isPrefixB : Str → Str → Bool
  | [], _ => true
  | _ :: _, [] => false
  | c :: p, d :: s => c == d && isPrefixB p s

/-- JS `s.includes(pat)`: `pat` occurs as a contiguous substring of `s`. -/
def containsSub (pat : Str) : Str → Bool
  | [] => isPrefixB pat []
  | d :: s => isPrefixB pat (d :: s) || containsSub pat s

/-- Source `results.filter(r => r.address?.road)` (source line 159): keep records
with a present, non-empty road. -/
def validOf (results : List NominatimResult) : List NominatimResult :=
  results.filter fun r =>
    match r.address with
    | some a => optStr a.road ≠ []
    | none => false

/-- Source `validResults.map(r => ({...r, display_name: formatArgentinianAddress(r, parsed)}))`
(source lines 170–173 and 181–184). -/
def mapFormat (rs : List NominatimResult) (parsed : ParsedHint) : List NominatimResult :=
  rs.map fun r => { r with display_name := formatArgentinianAddress r (some parsed) }

/-- The number-enforcement stage (source lines 175–186): when the parsed
hint carries a non-empty number, keep only formatted strings containing
it, falling back to the unfiltered formatted set if nothing survives. -/
def numberStage (validResults : List NominatimResult) (parsed : ParsedHint) :
    List NominatimResult :=
  let mapped := mapFormat validResults parsed
  match parsed.number with
  | some n =>
    if n ≠ [] then
      let filtered := mapped.filter fun s => containsSub n s.display_name
      if filtered = [] then mapFormat validResults parsed else filtered
    else mapped
  | none => mapped

/-- The dedupe loop over a `Set` of seen display names (source lines
188–196); the seen set is modelled as a list. -/
def dedupeAux (seen : List Str) : List NominatimResult → List NominatimResult
  | [] => []
  | m :: rest =>
    if m.display_name ∈ seen then dedupeAux seen rest
    else m :: dedupeAux (m.display_name :: seen) rest

/-- The pure candidate pipeline of `searchAddresses` on a successful
response (source lines 156–199): road filter, format with injection,
number enforcement, dedupe. -/
def processResults (results : List NominatimResult) (parsed : ParsedHint) :
    List NominatimResult :=
  let validResults := validOf results
  if validResults = [] then []
  else dedupeAux [] (numberStage validResults parsed)

/-- A well-formed token: non-empty and free of whitespace. -/
def goodTok (t : Str) : Prop := t ≠ [] ∧ ∀ c ∈ t, isWs c = false

/-- Whether a string contains two adjacent whitespace characters. -/
def hasDoubleWs : Str → Bool
  | c :: d :: rest => (isWs c && isWs d) || hasDoubleWs (d :: rest)
  | _ => false

/-- The address with the hint's number (and, when non-empty, the hint's
street) written into its structured fields. -/
def overrideAddr (a : Address) (street : Str) (n : Str) : Address :=
  { a with house_number := some n,
           road := if street ≠ [] then some street else a.road }

/-- The record with the hint's overrides applied to its address object. -/
def overrideRecord (r : NominatimResult) (h : ParsedHint) (n : Str) : NominatimResult :=
  { r with address := r.address.map fun a => overrideAddr a h.street n }

/-- A field value that cannot disturb the `", "` separator structure: it
contains no comma and neither starts nor ends with whitespace. -/
def goodValP (s : Str) : Prop :=
  (∀ c ∈ s, ¬ c = ',') ∧ isWs (s.headD 'x') = false ∧ isWs (s.getLastD 'x') = false

/-- All address fields used by the formatter are separator-safe. -/
def goodAddressP (a : Address) : Prop :=
  goodValP (optStr a.road) ∧ goodValP (optStr a.town) ∧ goodValP (optStr a.suburb) ∧
  goodValP (optStr a.village) ∧ goodValP (optStr a.municipality) ∧
  goodValP (optStr a.city_district) ∧ goodValP (optStr a.city) ∧
  goodValP (optStr a.state) ∧ goodValP (optStr a.house_number)

/-- The hint, when present, is separator-safe. -/
def goodHintP : Option ParsedHint → Prop
  | none => True
  | some h => goodValP h.street ∧ goodValP (optStr h.number)

/-- The hint street seen by the formatter, if any. -/
def hintStreet : Option ParsedHint → Str
  | none => []
  | some h => h.street

instance (s : Str) : Decidable (goodValP s) := by
  unfold goodValP
  infer_instance

instance (a : Address) : Decidable (goodAddressP a) := by
  unfold goodAddressP
  infer_instance

end AddressAutocomplete

namespace AddressAutocomplete

/-! ### Sanity checks: the spec's tokenizer and formatter test vectors -/

lemma tokenize_okinawa_example : extractStreetAndNumber "Okinawa 1518, Ze".data =
    { street := "Okinawa".data, number := some "1518".data } := by decide

lemma tokenize_nueve_de_julio_example : extractStreetAndNumber "9 de Julio".data =
    { street := "9 de Julio".data, number := none } := by decide

lemma tokenize_ruta_example : extractStreetAndNumber "Ruta 8 1518".data =
    { street := "Ruta 8".data, number := some "1518".data } := by decide

lemma tokenize_main_example : extractStreetAndNumber "Main".data =
    { street := "Main".data, number := none } := by decide

lemma format_hint_example :
    formatArgentinianAddress
      { display_name := "x".data,
        address := some { road := some "Av. José Andrés López".data,
                          house_number := some "200".data,
                          town := some "Ze".data,
                          state := some "Buenos Aires".data } }
      (some { street := "Calle 844".data, number := some "1518".data }) =
    "Calle 844 1518, Ze, Buenos Aires".data := by decide

lemma format_no_address_example :
    formatArgentinianAddress { display_name := "dn".data, address := none } none =
    "dn".data := by decide

/-! ### Lemmas about `jsTrim` -/

lemma dropWhile_eq_self_of_headD {p : Char → Bool} {l : Str}
    (h : p (l.headD 'x') = false) : l.dropWhile p = l := by
  cases l with
  | nil => rfl
  | cons c t => simp only [List.headD_cons] at h; simp [List.dropWhile_cons, h]

lemma dropWhile_headD_not (p : Char → Bool) (l : Str) {d : Char}
    (hd : p d = false) : p ((l.dropWhile p).headD d) = false := by
  induction l with
  | nil => simpa using hd
  | cons c t ih =>
    rw [List.dropWhile_cons]
    by_cases h : p c
    · simpa [h] using ih
    · simp only [Bool.not_eq_true] at h
      simp [h]

lemma headD_reverse (l : Str) (d : Char) : l.reverse.headD d = l.getLastD d := by
  rw [List.headD_eq_head?, List.head?_reverse, List.getLastD_eq_getLast?]

lemma jsTrim_eq_self {l : Str} (h1 : isWs (l.headD 'x') = false)
    (h2 : isWs (l.getLastD 'x') = false) : jsTrim l = l := by
  unfold jsTrim
  rw [dropWhile_eq_self_of_headD h1]
  rw [dropWhile_eq_self_of_headD (by rwa [headD_reverse]), List.reverse_reverse]

lemma jsTrim_boundary (s : Str) :
    isWs ((jsTrim s).headD 'x') = false ∧ isWs ((jsTrim s).getLastD 'x') = false := by
  have hx : isWs 'x' = false := by decide
  constructor
  · -- the head of the trim is the head of `dropWhile isWs s` (or the default)
    show isWs ((((s.dropWhile isWs).reverse.dropWhile isWs).reverse).headD 'x') = false
    rcases eq_or_ne ((s.dropWhile isWs).reverse.dropWhile isWs).reverse [] with h | h
    · rw [h]; simpa using hx
    · have hsuf : (s.dropWhile isWs).reverse.dropWhile isWs <:+ (s.dropWhile isWs).reverse :=
        List.dropWhile_suffix _
      have hpre : ((s.dropWhile isWs).reverse.dropWhile isWs).reverse <+: s.dropWhile isWs := by
        have := List.reverse_prefix.mpr hsuf
        rwa [List.reverse_reverse] at this
      obtain ⟨t, ht⟩ := hpre
      have hh : (((s.dropWhile isWs).reverse.dropWhile isWs).reverse).head? =
          (s.dropWhile isWs).head? := by
        conv_rhs => rw [← ht]
        rw [List.head?_append_of_ne_nil _ h]
      rw [List.headD_eq_head?, hh, ← List.headD_eq_head?]
      exact dropWhile_headD_not isWs s hx
  · show isWs ((((s.dropWhile isWs).reverse.dropWhile isWs).reverse).getLastD 'x') = false
    rw [← headD_reverse, List.reverse_reverse]
    exact dropWhile_headD_not isWs _ hx

lemma jsTrim_idem (s : Str) : jsTrim (jsTrim s) = jsTrim s :=
  jsTrim_eq_self (jsTrim_boundary s).1 (jsTrim_boundary s).2

/-! ### Lemmas about tokens produced by `splitWs` -/

lemma wordsAux_goodTok :
    ∀ (l acc : Str), (∀ c ∈ acc, isWs c = false) →
      ∀ t ∈ wordsAux acc l, goodTok t := by
  intro l
  induction l with
  | nil =>
    intro acc hacc t ht
    rw [wordsAux] at ht
    rcases eq_or_ne acc [] with h | h
    · simp [h] at ht
    · simp only [if_neg h, List.mem_singleton] at ht
      subst ht
      exact ⟨by simpa using h, fun c hc => hacc c (List.mem_reverse.mp hc)⟩
  | cons c rest ih =>
    intro acc hacc t ht
    rw [wordsAux] at ht
    by_cases hws : isWs c
    · rw [if_pos hws] at ht
      rcases List.mem_append.mp ht with h | h
      · rcases eq_or_ne acc [] with ha | ha
        · simp [ha] at h
        · simp only [if_neg ha, List.mem_singleton] at h
          subst h
          exact ⟨by simpa using ha, fun d hd => hacc d (List.mem_reverse.mp hd)⟩
      · exact ih [] (by simp) t h
    · rw [if_neg hws] at ht
      exact ih (c :: acc) (by
        intro d hd
        rcases List.mem_cons.mp hd with h | h
        · subst h; simpa using hws
        · exact hacc d h) t ht

lemma tokensOf_goodTok {input : Str} (hne : headOf input ≠ []) :
    ∀ t ∈ tokensOf input, goodTok t := by
  unfold tokensOf splitWs
  rw [if_neg hne]
  exact wordsAux_goodTok _ [] (by simp)

/-- If some token is numeric, the head cannot be empty (the empty head
yields the single empty token, which the regex rejects). -/
lemma headOf_ne_nil_of_numeric {input : Str}
    (h : numericIndices (tokensOf input) ≠ []) : headOf input ≠ [] := by
  intro hnil
  apply h
  have : tokensOf input = [[]] := by unfold tokensOf splitWs; rw [if_pos hnil]
  rw [this]
  decide

/-! ### Lemmas about `joinSpace` -/

lemma joinSpace_ne_nil {parts : List Str} (hne : parts ≠ [])
    (h : ∀ p ∈ parts, p ≠ []) : joinSpace parts ≠ [] := by
  match parts with
  | [] => exact absurd rfl hne
  | [t] => show t ≠ []; exact h t (by simp)
  | t :: u :: rest =>
    have ht : t ≠ [] := h t (by simp)
    show t ++ ' ' :: joinSpace (u :: rest) ≠ []
    intro hcontra
    exact ht (List.append_eq_nil.mp hcontra).1

lemma joinSpace_boundary :
    ∀ (parts : List Str), (∀ p ∈ parts, goodTok p) →
      isWs ((joinSpace parts).headD 'x') = false ∧
      isWs ((joinSpace parts).getLastD 'x') = false := by
  intro parts
  match parts with
  | [] => intro _; constructor <;> decide
  | [t] =>
    intro h
    obtain ⟨hne, hw⟩ := h t (by simp)
    constructor
    · rw [joinSpace]
      cases t with
      | nil => exact absurd rfl hne
      | cons c rest => exact hw c (by simp)
    · rw [joinSpace, List.getLastD_eq_getLast?, List.getLast?_eq_getLast t hne]
      exact hw _ (List.getLast_mem hne)
  | t :: u :: rest =>
    intro h
    obtain ⟨hne, hw⟩ := h t (by simp)
    have ih := joinSpace_boundary (u :: rest) (fun p hp => h p (by simp [hp]))
    constructor
    · rw [joinSpace, List.headD_eq_head?, List.head?_append_of_ne_nil _ hne,
        ← List.headD_eq_head?]
      cases t with
      | nil => exact absurd rfl hne
      | cons c r2 => exact hw c (by simp)
    · have hJ : joinSpace (u :: rest) ≠ [] :=
        joinSpace_ne_nil (by simp) (fun p hp => (h p (by simp [hp])).1)
      rw [joinSpace, List.getLastD_eq_getLast?, List.getLast?_append]
      have : (' ' :: joinSpace (u :: rest)).getLast? = (joinSpace (u :: rest)).getLast? := by
        rw [List.getLast?_eq_getLast _ (by simp),
          List.getLast_cons hJ, List.getLast?_eq_getLast _ hJ]
      rw [this, List.getLast?_eq_getLast _ hJ, Option.or_some]
      have := ih.2
      rwa [List.getLastD_eq_getLast?, List.getLast?_eq_getLast _ hJ] at this

lemma jsTrim_joinSpace {parts : List Str} (h : ∀ p ∈ parts, goodTok p) :
    jsTrim (joinSpace parts) = joinSpace parts :=
  jsTrim_eq_self (joinSpace_boundary parts h).1 (joinSpace_boundary parts h).2

/-! ### Lemmas about `numericIndices` -/

lemma getLastD_mem {α : Type} {l : List α} (h : l ≠ []) (d : α) : l.getLastD d ∈ l := by
  rw [List.getLastD_eq_getLast?, List.getLast?_eq_getLast _ h, Option.getD_some]
  exact List.getLast_mem h

lemma getLastD_irrel {α : Type} {l : List α} (h : l ≠ []) (a b : α) :
    l.getLastD a = l.getLastD b := by
  rw [List.getLastD_eq_getLast?, List.getLastD_eq_getLast?,
    List.getLast?_eq_getLast _ h, Option.getD_some, Option.getD_some]

lemma mem_numericIndices {tokens : List Str} {i : Nat} :
    i ∈ numericIndices tokens ↔
      i < tokens.length ∧ isNumericToken (tokens.getD i []) = true := by
  simp [numericIndices, List.mem_filter, List.mem_range]

lemma numericIndices_pairwise (tokens : List Str) :
    (numericIndices tokens).Pairwise (· < ·) :=
  (List.pairwise_lt_range tokens.length).filter _

lemma le_getLastD_of_pairwise {l : List Nat} (hp : l.Pairwise (· < ·)) {i : Nat}
    (hi : i ∈ l) : i ≤ l.getLastD 0 := by
  induction l with
  | nil => cases hi
  | cons a t ih =>
    rw [List.getLastD_cons]
    rcases List.mem_cons.mp hi with h | h
    · subst h
      cases t with
      | nil => simp [List.getLastD]
      | cons b t2 =>
        have hmem : (b :: t2).getLastD i ∈ b :: t2 := getLastD_mem (by simp) i
        exact Nat.le_of_lt ((List.pairwise_cons.mp hp).1 _ hmem)
    · have ht : t ≠ [] := List.ne_nil_of_mem h
      have := ih (List.pairwise_cons.mp hp).2 h
      rwa [getLastD_irrel ht 0 a] at this

lemma getLastD_pos_of_two_le {l : List Nat} (hp : l.Pairwise (· < ·))
    (hlen : 2 ≤ l.length) : 0 < l.getLastD 0 := by
  match l with
  | a :: b :: t =>
    rw [List.getLastD_cons]
    have hmem : (b :: t).getLastD a ∈ b :: t := getLastD_mem (by simp) a
    have := (List.pairwise_cons.mp hp).1 _ hmem
    omega

/-! ### Branch equations for the tokenizer -/

lemma extract_case1 {input : Str}
    (h : 2 ≤ (numericIndices (tokensOf input)).length) :
    extractStreetAndNumber input =
      { street := jsTrim (joinSpace ((tokensOf input).take
          ((numericIndices (tokensOf input)).getLastD 0))),
        number := some ((tokensOf input).getD
          ((numericIndices (tokensOf input)).getLastD 0) []) } := by
  unfold extractStreetAndNumber
  rw [if_pos h]

lemma extract_case2 {input : Str}
    (h : ¬ 2 ≤ (numericIndices (tokensOf input)).length)
    (h1 : (numericIndices (tokensOf input)).length = 1) :
    extractStreetAndNumber input =
      (if (numericIndices (tokensOf input)).headD 0 = (tokensOf input).length - 1 ∧
          0 < (numericIndices (tokensOf input)).headD 0 then
        { street := jsTrim (joinSpace ((tokensOf input).take
            ((numericIndices (tokensOf input)).headD 0))),
          number := some ((tokensOf input).getD
            ((numericIndices (tokensOf input)).headD 0) []) }
      else
        { street := headOf input, number := none }) := by
  unfold extractStreetAndNumber
  rw [if_neg h, if_pos h1]
  by_cases hc : (numericIndices (tokensOf input)).headD 0 = (tokensOf input).length - 1 ∧
      0 < (numericIndices (tokensOf input)).headD 0
  · rw [if_pos hc, if_pos]
    rw [Bool.and_eq_true, decide_eq_true_eq, decide_eq_true_eq]
    exact hc
  · rw [if_neg hc, if_neg]
    rw [Bool.and_eq_true, decide_eq_true_eq, decide_eq_true_eq]
    exact hc

lemma extract_case0 {input : Str}
    (h : numericIndices (tokensOf input) = []) :
    extractStreetAndNumber input = { street := headOf input, number := none } := by
  unfold extractStreetAndNumber
  rw [if_neg (by rw [h]; decide), if_neg (by rw [h]; decide)]

lemma headD_mem {α : Type} {l : List α} (h : l ≠ []) (d : α) : l.headD d ∈ l := by
  cases l with
  | nil => exact absurd rfl h
  | cons a t => simp

/-! ### Double whitespace -/

lemma hasDoubleWs_append {t z : Str} (ht : ∀ c ∈ t, isWs c = false)
    (hz : hasDoubleWs z = false) : hasDoubleWs (t ++ z) = false := by
  induction t with
  | nil => simpa
  | cons c rest ih =>
    cases rest with
    | nil =>
      cases z with
      | nil => rfl
      | cons d zr =>
        show hasDoubleWs (c :: d :: zr) = false
        rw [hasDoubleWs]
        simp [ht c (by simp), hz]
    | cons c2 r2 =>
      show hasDoubleWs (c :: c2 :: (r2 ++ z)) = false
      rw [hasDoubleWs]
      simp only [ht c (by simp), Bool.false_and, Bool.false_or]
      exact ih (fun d hd => ht d (by simp [List.mem_cons.mp hd]))

lemma hasDoubleWs_joinSpace :
    ∀ (parts : List Str), (∀ p ∈ parts, goodTok p) →
      hasDoubleWs (joinSpace parts) = false := by
  intro parts
  induction parts with
  | nil => intro _; rfl
  | cons t rest ih =>
    intro h
    cases rest with
    | nil =>
      show hasDoubleWs (joinSpace [t]) = false
      have := @hasDoubleWs_append t [] ((h t (by simp)).2) rfl
      rw [List.append_nil] at this
      exact this
    | cons u r2 =>
      show hasDoubleWs (t ++ ' ' :: joinSpace (u :: r2)) = false
      apply hasDoubleWs_append ((h t (by simp)).2)
      have hJ : hasDoubleWs (joinSpace (u :: r2)) = false :=
        ih (fun p hp => h p (by simp [hp]))
      have hhd : isWs ((joinSpace (u :: r2)).headD 'x') = false :=
        (joinSpace_boundary _ (fun p hp => h p (by simp [hp]))).1
      cases hJdef : joinSpace (u :: r2) with
      | nil => decide
      | cons d zr =>
        show hasDoubleWs (' ' :: d :: zr) = false
        rw [hasDoubleWs]
        rw [hJdef] at hJ hhd
        simp only [List.headD_cons] at hhd
        simp [hhd, hJ]

/-! ### Claim theorems: tokenizer -/

/-- C2: for every input string whose head contains two or more numeric
tokens, the tokenizer returns the last numeric token as the house number
and all tokens strictly before it, joined by single spaces, as the street;
in particular `tokenize("Ruta 8 1518")` is `{street: "Ruta 8", number: "1518"}`. -/
theorem C2_two_or_more_numeric_tokens (input : Str)
    (h : 2 ≤ (numericIndices (tokensOf input)).length) :
    ((extractStreetAndNumber input).number =
        some ((tokensOf input).getD ((numericIndices (tokensOf input)).getLastD 0) []) ∧
      isNumericToken
        ((tokensOf input).getD ((numericIndices (tokensOf input)).getLastD 0) []) = true ∧
      (∀ j, (numericIndices (tokensOf input)).getLastD 0 < j →
        j < (tokensOf input).length →
        isNumericToken ((tokensOf input).getD j []) = false) ∧
      (extractStreetAndNumber input).street =
        joinSpace ((tokensOf input).take ((numericIndices (tokensOf input)).getLastD 0))) ∧
    extractStreetAndNumber "Ruta 8 1518".data =
      { street := "Ruta 8".data, number := some "1518".data } := by
  have hne : numericIndices (tokensOf input) ≠ [] := by
    intro h0
    rw [h0] at h
    simp at h
  have hk := mem_numericIndices.mp (getLastD_mem hne 0)
  have hhead : headOf input ≠ [] := headOf_ne_nil_of_numeric hne
  have htOK : ∀ p ∈ (tokensOf input).take ((numericIndices (tokensOf input)).getLastD 0),
      goodTok p :=
    fun p hp => tokensOf_goodTok hhead p (List.mem_of_mem_take hp)
  refine ⟨⟨?_, hk.2, ?_, ?_⟩, by decide⟩
  · rw [extract_case1 h]
  · intro j h1 h2
    by_contra hb
    rw [Bool.not_eq_false] at hb
    have hj : j ∈ numericIndices (tokensOf input) := mem_numericIndices.mpr ⟨h2, hb⟩
    have := le_getLastD_of_pairwise (numericIndices_pairwise _) hj
    omega
  · rw [extract_case1 h]
    exact jsTrim_joinSpace htOK

theorem C2_witness :
    2 ≤ (numericIndices (tokensOf "Ruta 8 1518".data)).length ∧
    extractStreetAndNumber "Ruta 8 1518".data =
      { street := "Ruta 8".data, number := some "1518".data } :=
  ⟨by decide, (C2_two_or_more_numeric_tokens "Ruta 8 1518".data (by decide)).2⟩

/-- C3: with exactly one numeric token, the tokenizer returns it as the
house number (street = preceding tokens joined) exactly when it is the
last token and not the first; otherwise the whole head is the street and
the number is null.  In particular `tokenize("9 de Julio")` has no number
and `tokenize("Okinawa 1518, Ze")` is `{street: "Okinawa", number: "1518"}`. -/
theorem C3_single_numeric_token (input : Str)
    (h : (numericIndices (tokensOf input)).length = 1) :
    (((numericIndices (tokensOf input)).headD 0 = (tokensOf input).length - 1 ∧
        0 < (numericIndices (tokensOf input)).headD 0) →
      extractStreetAndNumber input =
        { street := joinSpace ((tokensOf input).take
            ((numericIndices (tokensOf input)).headD 0)),
          number := some ((tokensOf input).getD
            ((numericIndices (tokensOf input)).headD 0) []) }) ∧
    (¬ ((numericIndices (tokensOf input)).headD 0 = (tokensOf input).length - 1 ∧
        0 < (numericIndices (tokensOf input)).headD 0) →
      extractStreetAndNumber input = { street := headOf input, number := none }) ∧
    extractStreetAndNumber "9 de Julio".data =
      { street := "9 de Julio".data, number := none } ∧
    extractStreetAndNumber "Okinawa 1518, Ze".data =
      { street := "Okinawa".data, number := some "1518".data } := by
  have h2 : ¬ 2 ≤ (numericIndices (tokensOf input)).length := by omega
  refine ⟨?_, ?_, by decide, by decide⟩
  · intro hc
    have hne : numericIndices (tokensOf input) ≠ [] := by
      intro h0
      rw [h0] at h
      simp at h
    have hhead : headOf input ≠ [] := headOf_ne_nil_of_numeric hne
    rw [extract_case2 h2 h, if_pos hc,
      jsTrim_joinSpace (fun p hp => tokensOf_goodTok hhead p (List.mem_of_mem_take hp))]
  · intro hc
    rw [extract_case2 h2 h, if_neg hc]

theorem C3_witness :
    ((numericIndices (tokensOf "Okinawa 1518, Ze".data)).length = 1 ∧
      extractStreetAndNumber "Okinawa 1518, Ze".data =
        { street := joinSpace ((tokensOf "Okinawa 1518, Ze".data).take
            ((numericIndices (tokensOf "Okinawa 1518, Ze".data)).headD 0)),
          number := some ((tokensOf "Okinawa 1518, Ze".data).getD
            ((numericIndices (tokensOf "Okinawa 1518, Ze".data)).headD 0) []) }) ∧
    ((numericIndices (tokensOf "9 de Julio".data)).length = 1 ∧
      extractStreetAndNumber "9 de Julio".data =
        { street := headOf "9 de Julio".data, number := none }) :=
  ⟨⟨by decide, (C3_single_numeric_token "Okinawa 1518, Ze".data (by decide)).1 (by decide)⟩,
   ⟨by decide, (C3_single_numeric_token "9 de Julio".data (by decide)).2.1 (by decide)⟩⟩

/-- C9: whenever the tokenizer returns a non-null number, that number is a
non-empty numeric token (it matches the numeric-token pattern, so it
begins with a digit), and the street field is non-empty. -/
theorem C9_number_nonempty_street (input : Str) (n : Str)
    (h : (extractStreetAndNumber input).number = some n) :
    n ≠ [] ∧ isNumericToken n = true ∧ (extractStreetAndNumber input).street ≠ [] := by
  by_cases h2 : 2 ≤ (numericIndices (tokensOf input)).length
  · have hne : numericIndices (tokensOf input) ≠ [] := by
      intro h0
      rw [h0] at h2
      simp at h2
    have hk := mem_numericIndices.mp (getLastD_mem hne 0)
    have hhead : headOf input ≠ [] := headOf_ne_nil_of_numeric hne
    have htOK : ∀ p ∈ (tokensOf input).take
        ((numericIndices (tokensOf input)).getLastD 0), goodTok p :=
      fun p hp => tokensOf_goodTok hhead p (List.mem_of_mem_take hp)
    have hnum : n = (tokensOf input).getD
        ((numericIndices (tokensOf input)).getLastD 0) [] := by
      rw [extract_case1 h2] at h
      exact Option.some_injective _ h.symm
    have hstreet : (extractStreetAndNumber input).street =
        joinSpace ((tokensOf input).take
          ((numericIndices (tokensOf input)).getLastD 0)) := by
      rw [extract_case1 h2, jsTrim_joinSpace htOK]
    have hk1 : 0 < (numericIndices (tokensOf input)).getLastD 0 :=
      getLastD_pos_of_two_le (numericIndices_pairwise _) h2
    have hnumTok : isNumericToken n = true := hnum ▸ hk.2
    refine ⟨?_, hnumTok, ?_⟩
    · intro hnil
      rw [hnil] at hnumTok
      exact absurd hnumTok (by decide)
    · rw [hstreet]
      apply joinSpace_ne_nil
      · rw [Ne, List.take_eq_nil_iff]
        push_neg
        refine ⟨by omega, ?_⟩
        intro h0
        rw [h0] at hk
        simp at hk
      · exact fun p hp => (htOK p hp).1
  · by_cases h1 : (numericIndices (tokensOf input)).length = 1
    · rw [extract_case2 h2 h1] at h
      by_cases hc : (numericIndices (tokensOf input)).headD 0 =
          (tokensOf input).length - 1 ∧ 0 < (numericIndices (tokensOf input)).headD 0
      · have hne : numericIndices (tokensOf input) ≠ [] := by
          intro h0
          rw [h0] at h1
          simp at h1
        have hk := mem_numericIndices.mp (headD_mem hne 0)
        have hhead : headOf input ≠ [] := headOf_ne_nil_of_numeric hne
        have htOK : ∀ p ∈ (tokensOf input).take
            ((numericIndices (tokensOf input)).headD 0), goodTok p :=
          fun p hp => tokensOf_goodTok hhead p (List.mem_of_mem_take hp)
        rw [if_pos hc] at h
        have hnum : n = (tokensOf input).getD
            ((numericIndices (tokensOf input)).headD 0) [] :=
          Option.some_injective _ h.symm
        have hstreet : (extractStreetAndNumber input).street =
            joinSpace ((tokensOf input).take
              ((numericIndices (tokensOf input)).headD 0)) := by
          rw [extract_case2 h2 h1, if_pos hc, jsTrim_joinSpace htOK]
        have hnumTok : isNumericToken n = true := hnum ▸ hk.2
        refine ⟨?_, hnumTok, ?_⟩
        · intro hnil
          rw [hnil] at hnumTok
          exact absurd hnumTok (by decide)
        · rw [hstreet]
          apply joinSpace_ne_nil
          · rw [Ne, List.take_eq_nil_iff]
            push_neg
            refine ⟨by omega, ?_⟩
            intro h0
            rw [h0] at hk
            simp at hk
          · exact fun p hp => (htOK p hp).1
      · rw [if_neg hc] at h
        simp at h
    · have h0 : numericIndices (tokensOf input) = [] := by
        have : (numericIndices (tokensOf input)).length = 0 := by omega
        exact List.length_eq_zero.mp this
      rw [extract_case0 h0] at h
      simp at h

theorem C9_witness :
    (extractStreetAndNumber "Okinawa 1518".data).number = some "1518".data ∧
    ("1518".data ≠ [] ∧ isNumericToken "1518".data = true ∧
      (extractStreetAndNumber "Okinawa 1518".data).street ≠ []) :=
  ⟨by decide, C9_number_nonempty_street "Okinawa 1518".data "1518".data (by decide)⟩

/-- C7 counterexample: on the input `"9  de  Julio"` (double spaces) the
tokenizer takes the whole-head branch and returns the street with the
interior double spaces preserved, so the street is not free of runs of
two or more consecutive whitespace characters. -/
theorem C7_counterexample :
    (extractStreetAndNumber "9  de  Julio".data).street = "9  de  Julio".data ∧
    hasDoubleWs (extractStreetAndNumber "9  de  Julio".data).street = true := by decide

/-- C7 amended: the street field is always trimmed (leading and trailing
whitespace removed); in the branches that rebuild the street from tokens —
exactly those that return a non-null number — consecutive whitespace is
collapsed to single spaces; in the whole-head branches interior whitespace
runs are preserved. -/
theorem C7_amended_street_whitespace (input : Str) :
    jsTrim (extractStreetAndNumber input).street = (extractStreetAndNumber input).street ∧
    ((extractStreetAndNumber input).number ≠ none →
      hasDoubleWs (extractStreetAndNumber input).street = false) := by
  by_cases h2 : 2 ≤ (numericIndices (tokensOf input)).length
  · have hne : numericIndices (tokensOf input) ≠ [] := by
      intro h0
      rw [h0] at h2
      simp at h2
    have hhead : headOf input ≠ [] := headOf_ne_nil_of_numeric hne
    have htOK : ∀ p ∈ (tokensOf input).take
        ((numericIndices (tokensOf input)).getLastD 0), goodTok p :=
      fun p hp => tokensOf_goodTok hhead p (List.mem_of_mem_take hp)
    have hstreet : (extractStreetAndNumber input).street =
        jsTrim (joinSpace ((tokensOf input).take
          ((numericIndices (tokensOf input)).getLastD 0))) := by
      rw [extract_case1 h2]
    constructor
    · rw [hstreet, jsTrim_idem]
    · intro _
      rw [hstreet, jsTrim_joinSpace htOK]
      exact hasDoubleWs_joinSpace _ htOK
  · by_cases h1 : (numericIndices (tokensOf input)).length = 1
    · by_cases hc : (numericIndices (tokensOf input)).headD 0 =
          (tokensOf input).length - 1 ∧ 0 < (numericIndices (tokensOf input)).headD 0
      · have hne : numericIndices (tokensOf input) ≠ [] := by
          intro h0
          rw [h0] at h1
          simp at h1
        have hhead : headOf input ≠ [] := headOf_ne_nil_of_numeric hne
        have htOK : ∀ p ∈ (tokensOf input).take
            ((numericIndices (tokensOf input)).headD 0), goodTok p :=
          fun p hp => tokensOf_goodTok hhead p (List.mem_of_mem_take hp)
        have hstreet : (extractStreetAndNumber input).street =
            jsTrim (joinSpace ((tokensOf input).take
              ((numericIndices (tokensOf input)).headD 0))) := by
          rw [extract_case2 h2 h1, if_pos hc]
        constructor
        · rw [hstreet, jsTrim_idem]
        · intro _
          rw [hstreet, jsTrim_joinSpace htOK]
          exact hasDoubleWs_joinSpace _ htOK
      · have heq : extractStreetAndNumber input =
            { street := headOf input, number := none } := by
          rw [extract_case2 h2 h1, if_neg hc]
        rw [heq]
        exact ⟨jsTrim_idem _, fun hn => absurd rfl hn⟩
    · have h0 : numericIndices (tokensOf input) = [] := by
        have : (numericIndices (tokensOf input)).length = 0 := by omega
        exact List.length_eq_zero.mp this
      rw [extract_case0 h0]
      exact ⟨jsTrim_idem _, fun hn => absurd rfl hn⟩

theorem C7_amended_witness :
    jsTrim (extractStreetAndNumber "Okinawa 1518".data).street =
      (extractStreetAndNumber "Okinawa 1518".data).street ∧
    hasDoubleWs (extractStreetAndNumber "Okinawa 1518".data).street = false :=
  ⟨(C7_amended_street_whitespace "Okinawa 1518".data).1,
   (C7_amended_street_whitespace "Okinawa 1518".data).2 (by decide)⟩

/-! ### Claim theorems: formatter -/

lemma format_eq_none {r : NominatimResult} (haddr : r.address = none)
    (inj : Option ParsedHint) : formatArgentinianAddress r inj = r.display_name := by
  unfold formatArgentinianAddress
  rw [haddr]

lemma format_eq_some {r : NominatimResult} {a : Address} (haddr : r.address = some a)
    (inj : Option ParsedHint) :
    formatArgentinianAddress r inj =
      (if jsTrim (joinCommaSpace (formatParts a inj)) ≠ [] then
        jsTrim (joinCommaSpace (formatParts a inj))
      else r.display_name) := by
  unfold formatArgentinianAddress
  rw [haddr]

lemma numberToUse_override (a : Address) (h : ParsedHint) (n : Str)
    (hn : h.number = some n) (hne : n ≠ []) :
    numberToUse a (some h) = numberToUse (overrideAddr a h.street n) none := by
  unfold numberToUse overrideAddr
  simp only [Option.some_bind, hn, Option.none_bind, optStr, Option.getD_some]
  rw [if_pos hne]

lemma streetToUse_override (a : Address) (h : ParsedHint) (n : Str) :
    streetToUse a (some h) = streetToUse (overrideAddr a h.street n) none := by
  unfold streetToUse overrideAddr
  by_cases hs : h.street = []
  · simp [hs]
  · simp [hs, optStr]

lemma formatParts_override (a : Address) (h : ParsedHint) (n : Str)
    (hn : h.number = some n) (hne : n ≠ []) :
    formatParts a (some h) = formatParts (overrideAddr a h.street n) none := by
  unfold formatParts
  rw [← numberToUse_override a h n hn hne, ← streetToUse_override a h n]
  rfl

/-- C1: when the parsed hint carries a present, non-empty number, the
formatter uses the hint's number in place of the record's house number,
and, whenever the hint's street is non-empty, the hint's street in place
of the record's road, unconditionally: formatting with the hint equals
formatting the overridden record with no hint.  In particular the spec's
concrete record/hint pair formats to `"Calle 844 1518, Ze, Buenos Aires"`. -/
theorem C1_hint_number_overrides (r : NominatimResult) (h : ParsedHint) (n : Str)
    (hn : h.number = some n) (hne : n ≠ []) :
    formatArgentinianAddress r (some h) =
      formatArgentinianAddress (overrideRecord r h n) none ∧
    formatArgentinianAddress
      { display_name := "x".data,
        address := some { road := some "Av. José Andrés López".data,
                          house_number := some "200".data,
                          town := some "Ze".data,
                          state := some "Buenos Aires".data } }
      (some { street := "Calle 844".data, number := some "1518".data }) =
    "Calle 844 1518, Ze, Buenos Aires".data := by
  refine ⟨?_, by decide⟩
  cases haddr : r.address with
  | none =>
    have ha2 : (overrideRecord r h n).address = none := by
      unfold overrideRecord
      rw [haddr]
      rfl
    rw [format_eq_none haddr, format_eq_none ha2]
    rfl
  | some a =>
    have ha2 : (overrideRecord r h n).address = some (overrideAddr a h.street n) := by
      unfold overrideRecord
      rw [haddr]
      rfl
    have hd2 : (overrideRecord r h n).display_name = r.display_name := rfl
    rw [format_eq_some haddr, format_eq_some ha2, hd2,
      formatParts_override a h n hn hne]

theorem C1_witness :
    ({ street := "Calle 844".data, number := some "1518".data } : ParsedHint).number =
      some "1518".data ∧
    formatArgentinianAddress
      { display_name := "x".data,
        address := some { road := some "Av. José Andrés López".data,
                          house_number := some "200".data,
                          town := some "Ze".data,
                          state := some "Buenos Aires".data } }
      (some { street := "Calle 844".data, number := some "1518".data }) =
    "Calle 844 1518, Ze, Buenos Aires".data :=
  ⟨rfl,
   (C1_hint_number_overrides
      { display_name := "x".data,
        address := some { road := some "Av. José Andrés López".data,
                          house_number := some "200".data,
                          town := some "Ze".data,
                          state := some "Buenos Aires".data } }
      { street := "Calle 844".data, number := some "1518".data }
      "1518".data rfl (by decide)).2⟩

/-- C5: if the record has no structured address object the formatter
returns `displayName` unchanged; if the assembled comma-joined parts
string is empty after trimming it likewise falls back to `displayName`;
hence the result is never empty when `displayName` is non-empty. -/
theorem C5_displayName_fallback (r : NominatimResult) (inj : Option ParsedHint) :
    (r.address = none → formatArgentinianAddress r inj = r.display_name) ∧
    (∀ addr, r.address = some addr →
      jsTrim (joinCommaSpace (formatParts addr inj)) = [] →
      formatArgentinianAddress r inj = r.display_name) ∧
    (r.display_name ≠ [] → formatArgentinianAddress r inj ≠ []) := by
  refine ⟨?_, ?_, ?_⟩
  · intro h
    exact format_eq_none h inj
  · intro addr h hempty
    rw [format_eq_some h inj]
    simp [hempty]
  · intro hdn
    cases haddr : r.address with
    | none =>
      rw [format_eq_none haddr]
      exact hdn
    | some addr =>
      rw [format_eq_some haddr inj]
      by_cases hf : jsTrim (joinCommaSpace (formatParts addr inj)) = []
      · simp only [hf]
        simpa using hdn
      · rw [if_pos hf]
        exact hf

theorem C5_witness :
    ({ display_name := "dn".data, address := none } : NominatimResult).address = none ∧
    formatArgentinianAddress { display_name := "dn".data, address := none } none =
      "dn".data :=
  ⟨rfl, (C5_displayName_fallback { display_name := "dn".data, address := none } none).1 rfl⟩

/-- C8: both core functions are total with defined defaults: every numeric
token index the tokenizer manipulates is in bounds of the token list, the
tokenizer falls through to `street = head, number = null`, and the
formatter always returns either the trimmed parts join (when non-empty) or
`displayName`. -/
theorem C8_totality (input : Str) (r : NominatimResult) (inj : Option ParsedHint) :
    (∀ i ∈ numericIndices (tokensOf input), i < (tokensOf input).length) ∧
    ((extractStreetAndNumber input).number = none →
      (extractStreetAndNumber input).street = headOf input) ∧
    (formatArgentinianAddress r inj = r.display_name ∨
      ∃ addr, r.address = some addr ∧
        formatArgentinianAddress r inj = jsTrim (joinCommaSpace (formatParts addr inj)) ∧
        jsTrim (joinCommaSpace (formatParts addr inj)) ≠ []) := by
  refine ⟨?_, ?_, ?_⟩
  · intro i hi
    exact (mem_numericIndices.mp hi).1
  · intro hn
    by_cases h2 : 2 ≤ (numericIndices (tokensOf input)).length
    · rw [extract_case1 h2] at hn
      simp at hn
    · by_cases h1 : (numericIndices (tokensOf input)).length = 1
      · by_cases hc : (numericIndices (tokensOf input)).headD 0 =
            (tokensOf input).length - 1 ∧ 0 < (numericIndices (tokensOf input)).headD 0
        · rw [extract_case2 h2 h1, if_pos hc] at hn
          simp at hn
        · rw [extract_case2 h2 h1, if_neg hc]
      · have h0 : numericIndices (tokensOf input) = [] := by
          have : (numericIndices (tokensOf input)).length = 0 := by omega
          exact List.length_eq_zero.mp this
        rw [extract_case0 h0]
  · cases haddr : r.address with
    | none =>
      left
      exact format_eq_none haddr inj
    | some addr =>
      by_cases hf : jsTrim (joinCommaSpace (formatParts addr inj)) = []
      · left
        rw [format_eq_some haddr inj]
        simp [hf]
      · right
        refine ⟨addr, rfl, ?_, hf⟩
        rw [format_eq_some haddr inj, if_pos hf]

theorem C8_witness :
    (extractStreetAndNumber "Main".data).number = none ∧
    (extractStreetAndNumber "Main".data).street = headOf "Main".data :=
  ⟨by decide,
   (C8_totality "Main".data { display_name := "dn".data, address := none } none).2.1
     (by decide)⟩

/-! ### Claim theorems: dedupe -/

lemma dedupeAux_sublist : ∀ (l : List NominatimResult) (seen : List Str),
    (dedupeAux seen l).Sublist l := by
  intro l
  induction l with
  | nil => intro seen; exact List.Sublist.refl _
  | cons m rest ih =>
    intro seen
    rw [dedupeAux]
    by_cases h : m.display_name ∈ seen
    · rw [if_pos h]
      exact (ih seen).cons m
    · rw [if_neg h]
      exact (ih _).cons₂ m

lemma dedupeAux_not_mem_seen : ∀ (l : List NominatimResult) (seen : List Str),
    ∀ x ∈ dedupeAux seen l, x.display_name ∉ seen := by
  intro l
  induction l with
  | nil => intro seen x hx; simp [dedupeAux] at hx
  | cons m rest ih =>
    intro seen x hx
    rw [dedupeAux] at hx
    by_cases h : m.display_name ∈ seen
    · rw [if_pos h] at hx
      exact ih seen x hx
    · rw [if_neg h] at hx
      rcases List.mem_cons.mp hx with h1 | h1
      · subst h1
        exact h
      · intro hc
        exact ih _ x h1 (List.mem_cons_of_mem _ hc)

lemma dedupeAux_nodup : ∀ (l : List NominatimResult) (seen : List Str),
    ((dedupeAux seen l).map NominatimResult.display_name).Nodup := by
  intro l
  induction l with
  | nil => intro seen; simp [dedupeAux]
  | cons m rest ih =>
    intro seen
    rw [dedupeAux]
    by_cases h : m.display_name ∈ seen
    · rw [if_pos h]
      exact ih seen
    · rw [if_neg h]
      simp only [List.map_cons, List.nodup_cons]
      refine ⟨?_, ih _⟩
      intro hc
      obtain ⟨y, hy, hye⟩ := List.mem_map.mp hc
      exact dedupeAux_not_mem_seen rest _ y hy (by rw [hye]; exact List.mem_cons_self _ _)

lemma dedupeAux_names_complete :
    ∀ (l : List NominatimResult) (seen : List Str) (x : NominatimResult),
      x ∈ l → x.display_name ∉ seen →
      x.display_name ∈ (dedupeAux seen l).map NominatimResult.display_name := by
  intro l
  induction l with
  | nil => intro seen x hx; cases hx
  | cons m rest ih =>
    intro seen x hx hns
    rw [dedupeAux]
    by_cases h : m.display_name ∈ seen
    · rw [if_pos h]
      rcases List.mem_cons.mp hx with h1 | h1
      · subst h1
        exact absurd h hns
      · exact ih seen x h1 hns
    · rw [if_neg h]
      simp only [List.map_cons]
      rcases List.mem_cons.mp hx with h1 | h1
      · subst h1
        exact List.mem_cons_self _ _
      · by_cases he : x.display_name = m.display_name
        · rw [he]
          exact List.mem_cons_self _ _
        · refine List.mem_cons_of_mem _ (ih _ x h1 ?_)
          intro hc
          rcases List.mem_cons.mp hc with h2 | h2
          · exact he h2
          · exact hns h2

lemma dedupeAux_find_first : ∀ (l : List NominatimResult) (seen : List Str),
    ∀ x ∈ dedupeAux seen l,
      l.find? (fun y => decide (y.display_name = x.display_name)) = some x := by
  intro l
  induction l with
  | nil => intro seen x hx; simp [dedupeAux] at hx
  | cons m rest ih =>
    intro seen x hx
    rw [dedupeAux] at hx
    by_cases h : m.display_name ∈ seen
    · rw [if_pos h] at hx
      have hxs := dedupeAux_not_mem_seen rest seen x hx
      have hne : ¬ m.display_name = x.display_name := by
        intro he
        exact hxs (he ▸ h)
      rw [List.find?_cons_of_neg _ (by simpa using hne)]
      exact ih seen x hx
    · rw [if_neg h] at hx
      rcases List.mem_cons.mp hx with h1 | h1
      · subst h1
        rw [List.find?_cons_of_pos _ (by simp)]
      · have hxs := dedupeAux_not_mem_seen rest _ x h1
        have hne : ¬ m.display_name = x.display_name := by
          intro he
          exact hxs (by rw [← he]; exact List.mem_cons_self _ _)
        rw [List.find?_cons_of_neg _ (by simpa using hne)]
        exact ih _ x h1

/-- C6: deduplicating the formatted records by exact string equality of
`display_name` keeps exactly the first occurrence of each distinct string
(each survivor is the `find?`-first record bearing its name), preserves
the relative order of the survivors (the output is a sublist of the
input), and the output carries no two equal strings. -/
theorem C6_dedupe_first_occurrence (l : List NominatimResult) :
    (dedupeAux [] l).Sublist l ∧
    ((dedupeAux [] l).map NominatimResult.display_name).Nodup ∧
    (∀ x ∈ l, x.display_name ∈ (dedupeAux [] l).map NominatimResult.display_name) ∧
    (∀ x ∈ dedupeAux [] l,
      l.find? (fun y => decide (y.display_name = x.display_name)) = some x) :=
  ⟨dedupeAux_sublist l [], dedupeAux_nodup l [],
   fun x hx => dedupeAux_names_complete l [] x hx (by simp),
   fun x hx => dedupeAux_find_first l [] x hx⟩

/-! ### Claim theorems: number filter -/

/-- C4: with a present non-empty hint number, the number-enforcement stage
keeps exactly the formatted candidates whose string contains the number as
a substring; when that filter removes every candidate the stage returns
the unfiltered formatted set instead, so the stage is empty exactly when
the formatted set itself was empty. -/
theorem C4_number_filter_fallback (results : List NominatimResult)
    (parsed : ParsedHint) (n : Str) (h1 : parsed.number = some n) (h2 : n ≠ []) :
    ((mapFormat (validOf results) parsed).filter
        (fun s => containsSub n s.display_name) ≠ [] →
      numberStage (validOf results) parsed =
        (mapFormat (validOf results) parsed).filter
          (fun s => containsSub n s.display_name) ∧
      ∀ x ∈ numberStage (validOf results) parsed,
        containsSub n x.display_name = true) ∧
    ((mapFormat (validOf results) parsed).filter
        (fun s => containsSub n s.display_name) = [] →
      numberStage (validOf results) parsed = mapFormat (validOf results) parsed) ∧
    (numberStage (validOf results) parsed = [] ↔
      mapFormat (validOf results) parsed = []) := by
  have hstage : numberStage (validOf results) parsed =
      (if (mapFormat (validOf results) parsed).filter
          (fun s => containsSub n s.display_name) = []
       then mapFormat (validOf results) parsed
       else (mapFormat (validOf results) parsed).filter
          (fun s => containsSub n s.display_name)) := by
    unfold numberStage
    rw [h1]
    simp only [if_pos h2]
  refine ⟨?_, ?_, ?_⟩
  · intro hne
    rw [hstage, if_neg hne]
    exact ⟨rfl, fun x hx => (List.mem_filter.mp hx).2⟩
  · intro he
    rw [hstage, if_pos he]
  · rw [hstage]
    by_cases he : (mapFormat (validOf results) parsed).filter
        (fun s => containsSub n s.display_name) = []
    · rw [if_pos he]
    · rw [if_neg he]
      constructor
      · intro hf
        exact absurd hf he
      · intro hm
        rw [hm] at he
        simp at he

theorem C4_witness :
    ({ street := "Ok".data, number := some "15".data } : ParsedHint).number =
      some "15".data ∧
    (numberStage
        (validOf [{ display_name := "dn".data,
                    address := some { road := some "Ok".data } }])
        { street := "Ok".data, number := some "15".data } = [] ↔
      mapFormat
        (validOf [{ display_name := "dn".data,
                    address := some { road := some "Ok".data } }])
        { street := "Ok".data, number := some "15".data } = []) :=
  ⟨rfl,
   (C4_number_filter_fallback
      [{ display_name := "dn".data, address := some { road := some "Ok".data } }]
      { street := "Ok".data, number := some "15".data }
      "15".data rfl (by decide)).2.2⟩

theorem C6_witness :
    ({ display_name := "a".data } : NominatimResult) ∈
      [({ display_name := "a".data } : NominatimResult),
       { display_name := "b".data }, { display_name := "a".data, lat := "1".data }] ∧
    "a".data ∈
      (dedupeAux []
        [({ display_name := "a".data } : NominatimResult),
         { display_name := "b".data },
         { display_name := "a".data, lat := "1".data }]).map
        NominatimResult.display_name :=
  ⟨by decide,
   (C6_dedupe_first_occurrence
      [({ display_name := "a".data } : NominatimResult),
       { display_name := "b".data }, { display_name := "a".data, lat := "1".data }]).2.2.1
     { display_name := "a".data } (by decide)⟩

/-! ### Claim theorems: formatter output structure (C10) -/

lemma jsOr_goodValP {a b : Str} (ha : goodValP a) (hb : goodValP b) :
    goodValP (jsOr a b) := by
  unfold jsOr
  split
  · exact hb
  · exact ha

lemma streetToUse_goodValP {a : Address} {inj : Option ParsedHint}
    (hga : goodAddressP a) (hgi : goodHintP inj) : goodValP (streetToUse a inj) := by
  cases inj with
  | none => exact hga.1
  | some h =>
    show goodValP (if h.street ≠ [] then h.street else optStr a.road)
    split
    · exact hgi.1
    · exact hga.1

lemma numberToUse_some_none (a : Address) (h : ParsedHint) (hn : h.number = none) :
    numberToUse a (some h) = optStr a.house_number := by
  unfold numberToUse
  rw [Option.some_bind, hn]

lemma numberToUse_some_some (a : Address) (h : ParsedHint) (n : Str)
    (hn : h.number = some n) :
    numberToUse a (some h) = if n ≠ [] then n else optStr a.house_number := by
  unfold numberToUse
  rw [Option.some_bind, hn]

lemma numberToUse_goodValP {a : Address} {inj : Option ParsedHint}
    (hga : goodAddressP a) (hgi : goodHintP inj) : goodValP (numberToUse a inj) := by
  cases inj with
  | none => exact hga.2.2.2.2.2.2.2.2
  | some h =>
    cases hn : h.number with
    | none =>
      rw [numberToUse_some_none a h hn]
      exact hga.2.2.2.2.2.2.2.2
    | some n =>
      rw [numberToUse_some_some a h n hn]
      split
      · have := hgi.2
        rw [hn] at this
        exact this
      · exact hga.2.2.2.2.2.2.2.2

lemma localityOf_goodValP {a : Address} (hga : goodAddressP a) :
    goodValP (localityOf a) :=
  jsOr_goodValP hga.2.1 (jsOr_goodValP hga.2.2.1 hga.2.2.2.1)

lemma municipalityOf_goodValP {a : Address} (hga : goodAddressP a) :
    goodValP (municipalityOf a) :=
  jsOr_goodValP hga.2.2.2.2.1 (jsOr_goodValP hga.2.2.2.2.2.1 hga.2.2.2.2.2.2.1)

lemma segment_goodValP {s nstr : Str} (hs : s ≠ []) (hn : nstr ≠ [])
    (hsg : goodValP s) (hng : goodValP nstr) : goodValP (s ++ ' ' :: nstr) := by
  refine ⟨?_, ?_, ?_⟩
  · intro c hc
    rcases List.mem_append.mp hc with h | h
    · exact hsg.1 c h
    · rcases List.mem_cons.mp h with h | h
      · subst h
        decide
      · exact hng.1 c h
  · rw [List.headD_eq_head?, List.head?_append_of_ne_nil _ hs, ← List.headD_eq_head?]
    exact hsg.2.1
  · rw [List.getLastD_eq_getLast?, List.getLast?_append]
    have h1 : (' ' :: nstr).getLast? = nstr.getLast? := by
      rw [List.getLast?_eq_getLast _ (by simp), List.getLast_cons hn,
        List.getLast?_eq_getLast _ hn]
    rw [h1, List.getLast?_eq_getLast _ hn, Option.or_some]
    have := hng.2.2
    rwa [List.getLastD_eq_getLast?, List.getLast?_eq_getLast _ hn] at this

lemma mem_if_singleton {c : Prop} [Decidable c] {x p : Str}
    (h : p ∈ (if c then [x] else ([] : List Str))) : c ∧ p = x := by
  split at h
  · exact ⟨by assumption, List.mem_singleton.mp h⟩
  · cases h

lemma formatParts_goodValP {a : Address} {inj : Option ParsedHint}
    (hga : goodAddressP a) (hgi : goodHintP inj) :
    ∀ p ∈ formatParts a inj, p ≠ [] ∧ goodValP p := by
  intro p hp
  unfold formatParts at hp
  simp only [List.mem_append] at hp
  rcases hp with ((hp | hp) | hp) | hp
  · obtain ⟨hc, rfl⟩ := mem_if_singleton hp
    by_cases hn : numberToUse a inj ≠ []
    · rw [if_pos hn]
      refine ⟨?_, segment_goodValP hc hn (streetToUse_goodValP hga hgi)
        (numberToUse_goodValP hga hgi)⟩
      intro hcontra
      exact hc (List.append_eq_nil.mp hcontra).1
    · rw [if_neg hn]
      exact ⟨hc, streetToUse_goodValP hga hgi⟩
  · obtain ⟨hc, rfl⟩ := mem_if_singleton hp
    exact ⟨hc, localityOf_goodValP hga⟩
  · obtain ⟨hc, rfl⟩ := mem_if_singleton hp
    exact ⟨hc, municipalityOf_goodValP hga⟩
  · obtain ⟨hc, rfl⟩ := mem_if_singleton hp
    exact ⟨hc, hga.2.2.2.2.2.2.2.1⟩

lemma formatParts_parts_ne_nil {a : Address} {inj : Option ParsedHint} :
    ∀ p ∈ formatParts a inj, p ≠ [] := by
  intro p hp
  unfold formatParts at hp
  simp only [List.mem_append] at hp
  rcases hp with ((hp | hp) | hp) | hp
  · obtain ⟨hc, rfl⟩ := mem_if_singleton hp
    split
    · intro hcontra
      exact hc (List.append_eq_nil.mp hcontra).1
    · exact hc
  · obtain ⟨hc, rfl⟩ := mem_if_singleton hp
    exact hc
  · obtain ⟨hc, rfl⟩ := mem_if_singleton hp
    exact hc
  · obtain ⟨hc, rfl⟩ := mem_if_singleton hp
    exact hc

lemma formatParts_no_usable_street {a : Address} {inj : Option ParsedHint}
    (hr : optStr a.road = []) (hs : hintStreet inj = []) :
    formatParts a inj = formatParts a none := by
  have h1 : streetToUse a inj = streetToUse a none := by
    cases inj with
    | none => rfl
    | some h =>
      show (if h.street ≠ [] then h.street else optStr a.road) = optStr a.road
      rw [if_neg (by simpa using (hs : h.street = []))]
  have h2 : streetToUse a none = [] := hr
  unfold formatParts
  rw [h1, h2]
  simp

/-! ### `joinCommaSpace` separator lemmas -/

lemma joinCommaSpace_ne_nil {parts : List Str} (hne : parts ≠ [])
    (h : ∀ p ∈ parts, p ≠ []) : joinCommaSpace parts ≠ [] := by
  match parts with
  | [] => exact absurd rfl hne
  | [t] => show t ≠ []; exact h t (by simp)
  | t :: u :: rest =>
    have ht : t ≠ [] := h t (by simp)
    show t ++ ',' :: ' ' :: joinCommaSpace (u :: rest) ≠ []
    intro hcontra
    exact ht (List.append_eq_nil.mp hcontra).1

lemma joinCommaSpace_headD {u : Str} (r2 : List Str) (hu : u ≠ []) (d : Char) :
    (joinCommaSpace (u :: r2)).headD d = u.headD d := by
  cases r2 with
  | nil => rfl
  | cons v r3 =>
    show (u ++ ',' :: ' ' :: joinCommaSpace (v :: r3)).headD d = u.headD d
    rw [List.headD_eq_head?, List.head?_append_of_ne_nil _ hu, ← List.headD_eq_head?]

lemma joinCommaSpace_boundary :
    ∀ (parts : List Str), (∀ p ∈ parts, p ≠ [] ∧ goodValP p) →
      isWs ((joinCommaSpace parts).headD 'x') = false ∧
      isWs ((joinCommaSpace parts).getLastD 'x') = false := by
  intro parts
  induction parts with
  | nil => intro _; constructor <;> decide
  | cons t rest ih =>
    intro h
    obtain ⟨hne, hg⟩ := h t (by simp)
    cases rest with
    | nil =>
      constructor
      · show isWs ((joinCommaSpace [t]).headD 'x') = false
        rw [joinCommaSpace_headD [] hne]
        exact hg.2.1
      · show isWs (t.getLastD 'x') = false
        exact hg.2.2
    | cons u r2 =>
      have ih2 := ih (fun p hp => h p (by simp [hp]))
      have hJ : joinCommaSpace (u :: r2) ≠ [] :=
        joinCommaSpace_ne_nil (by simp) (fun p hp => (h p (by simp [hp])).1)
      constructor
      · rw [joinCommaSpace_headD (u :: r2) hne]
        exact hg.2.1
      · show isWs ((t ++ ',' :: ' ' :: joinCommaSpace (u :: r2)).getLastD 'x') = false
        rw [List.getLastD_eq_getLast?, List.getLast?_append]
        have h1 : (',' :: ' ' :: joinCommaSpace (u :: r2)).getLast? =
            (joinCommaSpace (u :: r2)).getLast? := by
          rw [List.getLast?_eq_getLast _ (by simp), List.getLast_cons (by simp),
            List.getLast_cons hJ, List.getLast?_eq_getLast _ hJ]
        rw [h1, List.getLast?_eq_getLast _ hJ, Option.or_some]
        have := ih2.2
        rwa [List.getLastD_eq_getLast?, List.getLast?_eq_getLast _ hJ] at this

lemma isPrefixB_head_ne {c0 : Char} {q s : Str} (hne : s ≠ [])
    (h : ¬ s.headD 'x' = c0) : isPrefixB (c0 :: q) s = false := by
  cases s with
  | nil => exact absurd rfl hne
  | cons d sr =>
    show (c0 == d && isPrefixB q sr) = false
    simp only [List.headD_cons] at h
    have hc : (c0 == d) = false := by
      rw [beq_eq_false_iff_ne]
      intro he
      exact h he.symm
    rw [hc, Bool.false_and]

lemma containsSub_append_head_ne {c0 : Char} {pt z : Str} :
    ∀ {x : Str}, (∀ c ∈ x, ¬ c = c0) →
      containsSub (c0 :: pt) (x ++ z) = containsSub (c0 :: pt) z := by
  intro x
  induction x with
  | nil => intro _; rfl
  | cons c xr ih =>
    intro hx
    show containsSub (c0 :: pt) (c :: (xr ++ z)) = _
    rw [containsSub]
    have h1 : isPrefixB (c0 :: pt) (c :: (xr ++ z)) = false := by
      show (c0 == c && isPrefixB pt (xr ++ z)) = false
      have hc : (c0 == c) = false := by
        rw [beq_eq_false_iff_ne]
        intro he
        exact hx c (by simp) he.symm
      rw [hc, Bool.false_and]
    rw [h1, Bool.false_or]
    exact ih (fun d hd => hx d (by simp [hd]))

lemma containsSub_comma_pattern_eq_false {pt p : Str} (hp : ∀ c ∈ p, ¬ c = ',') :
    containsSub (',' :: pt) p = false := by
  have h := @containsSub_append_head_ne ',' pt [] p hp
  rw [List.append_nil] at h
  rw [h]
  rfl

lemma joinCommaSpace_no_double_sep :
    ∀ (parts : List Str), (∀ p ∈ parts, p ≠ [] ∧ (∀ c ∈ p, ¬ c = ',')) →
      containsSub [',', ' ', ',', ' '] (joinCommaSpace parts) = false := by
  intro parts
  induction parts with
  | nil => intro _; rfl
  | cons t rest ih =>
    intro h
    cases rest with
    | nil =>
      show containsSub [',', ' ', ',', ' '] (joinCommaSpace [t]) = false
      exact containsSub_comma_pattern_eq_false (h t (by simp)).2
    | cons u r2 =>
      show containsSub [',', ' ', ',', ' ']
        (t ++ ',' :: ' ' :: joinCommaSpace (u :: r2)) = false
      rw [containsSub_append_head_ne (h t (by simp)).2]
      have hJne : joinCommaSpace (u :: r2) ≠ [] :=
        joinCommaSpace_ne_nil (by simp) (fun p hp => (h p (by simp [hp])).1)
      have hJhead : ¬ (joinCommaSpace (u :: r2)).headD 'x' = ',' := by
        rw [joinCommaSpace_headD r2 (h u (by simp)).1]
        exact (h u (by simp)).2 _ (headD_mem (h u (by simp)).1 'x')
      have hJ := ih (fun p hp => h p (by simp [hp]))
      rw [containsSub]
      have h1 : isPrefixB [',', ' ', ',', ' ']
          (',' :: ' ' :: joinCommaSpace (u :: r2)) = false := by
        show (',' == ',' &&
          (' ' == ' ' && isPrefixB [',', ' '] (joinCommaSpace (u :: r2)))) = false
        rw [isPrefixB_head_ne hJne hJhead]
        decide
      rw [h1, Bool.false_or, containsSub]
      have h2 : isPrefixB [',', ' ', ',', ' ']
          (' ' :: joinCommaSpace (u :: r2)) = false := by
        show ((',' : Char) == ' ' &&
          isPrefixB [' ', ',', ' '] (joinCommaSpace (u :: r2))) = false
        rw [show ((',' : Char) == ' ') = false by decide, Bool.false_and]
      rw [h2, Bool.false_or]
      exact hJ

/-- C10 counterexample: a record whose `state` field itself contains
`", , "` formats (with no hint) to that very string — the formatter does
not fall back to `displayName`, yet its output contains two consecutive
separators.  The claim as stated, quantified over every record, is false. -/
theorem C10_counterexample :
    formatArgentinianAddress
      { display_name := "dn".data, address := some { state := some "a, , b".data } }
      none ≠ "dn".data ∧
    containsSub [',', ' ', ',', ' ']
      (formatArgentinianAddress
        { display_name := "dn".data, address := some { state := some "a, , b".data } }
        none) = true := by decide

/-- C10 amended: for every record with a structured address and every
hint, the parts list contains only non-empty segments (empty fields
contribute nothing, and a hint number with empty record road and empty
hint street is silently absent: the parts equal the hint-free parts); and
provided every field and hint value is separator-safe (contains no comma
and neither starts nor ends with whitespace), the non-fallback output is
exactly the `", "`-join of the parts, contains no `", , "`, and neither
begins nor ends with the separator. -/
theorem C10_amended_separator_structure (r : NominatimResult) (addr : Address)
    (inj : Option ParsedHint) (haddr : r.address = some addr) :
    (∀ p ∈ formatParts addr inj, p ≠ []) ∧
    ((optStr addr.road = [] ∧ hintStreet inj = []) →
      formatParts addr inj = formatParts addr none) ∧
    (goodAddressP addr → goodHintP inj → formatParts addr inj ≠ [] →
      formatArgentinianAddress r inj = joinCommaSpace (formatParts addr inj) ∧
      containsSub [',', ' ', ',', ' '] (formatArgentinianAddress r inj) = false ∧
      isPrefixB [',', ' '] (formatArgentinianAddress r inj) = false ∧
      isPrefixB [' ', ','] (formatArgentinianAddress r inj).reverse = false) := by
  refine ⟨formatParts_parts_ne_nil, fun hd => formatParts_no_usable_street hd.1 hd.2, ?_⟩
  intro hga hgi hpne
  have hparts := formatParts_goodValP hga hgi
  have hb := joinCommaSpace_boundary (formatParts addr inj) hparts
  have hjne : joinCommaSpace (formatParts addr inj) ≠ [] :=
    joinCommaSpace_ne_nil hpne (fun p hp => (hparts p hp).1)
  have htrim : jsTrim (joinCommaSpace (formatParts addr inj)) =
      joinCommaSpace (formatParts addr inj) := jsTrim_eq_self hb.1 hb.2
  have hfmt : formatArgentinianAddress r inj = joinCommaSpace (formatParts addr inj) := by
    rw [format_eq_some haddr inj, htrim, if_pos hjne]
  refine ⟨hfmt, ?_, ?_, ?_⟩
  · rw [hfmt]
    exact joinCommaSpace_no_double_sep _
      (fun p hp => ⟨(hparts p hp).1, (hparts p hp).2.1⟩)
  · rw [hfmt]
    obtain ⟨t, rest, hps⟩ := List.exists_cons_of_ne_nil hpne
    have ht := hparts t (by rw [hps]; exact List.mem_cons_self _ _)
    have hhd : ¬ (joinCommaSpace (formatParts addr inj)).headD 'x' = ',' := by
      rw [hps, joinCommaSpace_headD rest (ht.1)]
      exact ht.2.1 _ (headD_mem ht.1 'x')
    exact isPrefixB_head_ne hjne hhd
  · rw [hfmt]
    have hrne : (joinCommaSpace (formatParts addr inj)).reverse ≠ [] := by
      simpa using hjne
    have hlast : ¬ (joinCommaSpace (formatParts addr inj)).reverse.headD 'x' = ' ' := by
      rw [headD_reverse]
      intro he
      have hws := hb.2
      rw [he] at hws
      simp [isWs] at hws
    exact isPrefixB_head_ne hrne hlast

theorem C10_amended_witness :
    goodAddressP { road := some "Ok".data, house_number := some "15".data,
                   town := some "Ze".data } ∧
    formatArgentinianAddress
      { display_name := "dn".data,
        address := some { road := some "Ok".data, house_number := some "15".data,
                          town := some "Ze".data } } none =
      joinCommaSpace (formatParts
        { road := some "Ok".data, house_number := some "15".data,
          town := some "Ze".data } none) :=
  ⟨by decide,
   ((C10_amended_separator_structure
      { display_name := "dn".data,
        address := some { road := some "Ok".data, house_number := some "15".data,
                          town := some "Ze".data } }
      { road := some "Ok".data, house_number := some "15".data, town := some "Ze".data }
      none rfl).2.2 (by decide) trivial (by decide)).1⟩

end AddressAutocomplete
